import Mathlib

/-!
Verification of the Doctolib scraper pipeline (final_doctolib_scraper.py,
doctolib_scraper.py, utils.py, configurable_scraper.py).

Strings are modelled as `List Char` (`Str`).  Python string operations used
by the scrapers — `str.strip`, the `in` substring test, `str.split(sep)[0]`,
`re.sub(r'<[^>]+>', '')`, `re.sub(r'\s+', ' ')` and the concrete
`re.findall` / `re.search` patterns of the fallback extractor — are given
direct executable models below, each annotated with the Python expression it
embeds.  External collaborators that are not part of this repository
(the crawl4ai browser engine, `urllib.parse.urljoin`, `hashlib.md5`,
`random`) are modelled as function parameters.
-/

namespace Scrape

/-- Strings as lists of characters. -/
abbrev Str := List Char

/-- Python whitespace, as matched by `\s` and stripped by `str.strip()`:
the ASCII whitespace characters plus the Unicode ones Python treats as
whitespace (file separators, NEL, no-break and typographic spaces, line and
paragraph separators). -/
def pyIsSpace (c : Char) : Bool :=
  c = ' ' || c = '\t' || c = '\n' || c = '\r' || c = '\x0b' || c = '\x0c' ||
  c = '\x1c' || c = '\x1d' || c = '\x1e' || c = '\x1f' || c = '\x85' ||
  c = '\xa0' || c = '\u1680' ||
  ('\u2000' ≤ c && c ≤ '\u200a') ||
  c = '\u2028' || c = '\u2029' || c = '\u202f' || c = '\u205f' || c = '\u3000'

/-- Character is not the closing angle bracket (the `[^>]` character class). -/
def notGt (c : Char) : Bool := c != '>'

/-- Left part of Python `str.strip()`. -/
def lstrip (s : Str) : Str := s.dropWhile pyIsSpace

/-- Right part of Python `str.strip()`. -/
def rstrip (s : Str) : Str := (s.reverse.dropWhile pyIsSpace).reverse

/-- Python `str.strip()`. -/
def pyStrip (s : Str) : Str := rstrip (lstrip s)

/-- The scan of `re.sub(r'\s+', ' ', s)`: `inRun` records whether the
previous character belonged to a whitespace run.  The first character of
each maximal whitespace run is emitted as a single space; the rest of the
run is dropped. -/
def collapseGo : Bool → Str → Str
  | _, [] => []
  | inRun, c :: rest =>
    if pyIsSpace c then
      if inRun then collapseGo true rest else ' ' :: collapseGo true rest
    else c :: collapseGo false rest

/-- Python `re.sub(r'\s+', ' ', s)`: every maximal run of whitespace is
replaced by a single space. -/
def collapseWS (s : Str) : Str := collapseGo false s

/-- The scan of `re.sub(r'<[^>]+>', '', s)`.  `pend = some buf` means the
scan sits inside a candidate tag opened by `<`, with `buf` the reversed
characters read since (all non-`>`).  A `>` with a non-empty body closes and
drops the tag; a `>` right after the `<` means the regex (`[^>]+` needs at
least one character) fails at that `<`, so the engine emits `<` and resumes
at the `>`; running out of input means no `>` follows the `<` at all, so no
tag can complete anywhere in the buffered remainder and it is emitted
verbatim. -/
def stripGo : Option Str → Str → Str
  | none, [] => []
  | none, c :: rest => if c = '<' then stripGo (some []) rest else c :: stripGo none rest
  | some pend, [] => '<' :: pend.reverse
  | some pend, c :: rest =>
    if c = '>' then
      if pend = [] then '<' :: '>' :: stripGo none rest
      else stripGo none rest
    else stripGo (some (c :: pend)) rest

/-- Python `re.sub(r'<[^>]+>', '', s)`: each substring consisting of `<`,
one or more characters other than `>`, then `>` is removed; a `<` that does
not begin such a complete tag is kept. -/
def stripTags (s : Str) : Str := stripGo none s

/-- Python `sub in s` substring membership test (case-sensitive). -/
def occurs (p : Str) : Str → Bool
  | [] => p.isPrefixOf []
  | c :: rest => p.isPrefixOf (c :: rest) || occurs p rest

/-- Python `s.split(p)[0]`: the prefix of `s` before the first occurrence of
`p` (all of `s` when `p` does not occur). -/
def splitBefore (p : Str) : Str → Str
  | [] => []
  | c :: rest => if p.isPrefixOf (c :: rest) then [] else c :: splitBefore p rest

/-- Case-insensitive prefix test, modelling a literal matched under
`re.IGNORECASE`. -/
def isPrefCI : Str → Str → Bool
  | [], _ => true
  | _ :: _, [] => false
  | a :: ps, b :: ss => (a.toLower == b.toLower) && isPrefCI ps ss

/-- First case-insensitive occurrence of `pat` in the string: returns the
part before the match and the suffix starting at the match. -/
def findCI (pat : Str) : Str → Option (Str × Str)
  | [] => if isPrefCI pat [] then some ([], []) else none
  | c :: rest =>
    if isPrefCI pat (c :: rest) then some ([], c :: rest)
    else
      match findCI pat rest with
      | some (b, m) => some (c :: b, m)
      | none => none

/-- First case-sensitive occurrence of `pat`: part before the match and the
suffix starting at the match. -/
def findCS (pat : Str) : Str → Option (Str × Str)
  | [] => if pat.isPrefixOf [] then some ([], []) else none
  | c :: rest =>
    if pat.isPrefixOf (c :: rest) then some ([], c :: rest)
    else
      match findCS pat rest with
      | some (b, m) => some (c :: b, m)
      | none => none

/-- The regex fragment `[^>]*>`: skip to just after the first `>`; `none`
when the string has no `>`. -/
def skipToGt (s : Str) : Option Str :=
  match s.dropWhile notGt with
  | '>' :: after => some after
  | _ => none

end Scrape

/-! ## final_doctolib_scraper.py -/

namespace FinalScraper

open Scrape

/-- `DoctolibScraper._clean_text`: empty for null/empty input, otherwise
removes `<[^>]+>` tags, strips, and collapses whitespace runs to one space
(`re.sub(r'\s+', ' ', text.strip())`). -/
def clean_text (s : Str) : Str :=
  if s = [] then [] else collapseWS (pyStrip (stripTags s))

/-- The `Doctor` dataclass of final_doctolib_scraper.py. -/
structure Doctor where
  name : Str
  distance : Option Str := none
  insurance : Option Str := none
  rating : Option Str := none
deriving DecidableEq

/-- The `skip_terms` denylist of `_parse_extracted_data` (line 150). -/
def skipTerms : List Str :=
  ["Notre entreprise", "Doctolib", "Questions", "Recherches", "Pour les",
   "Centre d\x27aide", "Utiliser", "Mot de passe", "Prendre et confirmer"].map
    String.toList

/-- One JSON item of the extracted batch, with the raw field strings the
code reads via `item.get(key, '')` (a missing key is the empty string). -/
structure RawItem where
  name : Str
  distance : Str
  insurance : Str
deriving DecidableEq

/-- The shape of `json.loads(extracted_content)` as `_parse_extracted_data`
case-splits on it: a list (whose non-dict entries are `none`), a single
dict, or any other value. -/
inductive JsonData where
  | jlist (items : List (Option RawItem))
  | jdict (it : RawItem)
  | jother
deriving DecidableEq

/-- Lines 132-138: a list is used as is, a dict is wrapped in a singleton
list, anything else yields no records. -/
def toDataList : JsonData → List (Option RawItem)
  | .jlist l => l
  | .jdict it => [some it]
  | .jother => []

/-- Lines 143-157: clean each field, keep the item only when the cleaned
name is non-empty, not `'Unknown'`, and contains no denylist term
(case-sensitive substring test `term in name`); empty cleaned distance or
insurance becomes `None`. -/
def mkDoctor (it : RawItem) : Option Doctor :=
  let name := pyStrip (clean_text it.name)
  let distance := pyStrip (clean_text it.distance)
  let insurance := pyStrip (clean_text it.insurance)
  if name ≠ [] ∧ name ≠ "Unknown".toList ∧ skipTerms.all (fun t => !occurs t name) then
    some { name := name,
           distance := if distance = [] then none else some distance,
           insurance := if insurance = [] then none else some insurance }
  else none

/-- Lines 159-167: remove records whose name was already seen, keeping the
first occurrence and the original relative order. -/
def dedupe (seen : List Str) : List Doctor → List Doctor
  | [] => []
  | d :: rest =>
    if d.name ∈ seen then dedupe seen rest
    else d :: dedupe (d.name :: seen) rest

/-- `DoctolibScraper._parse_extracted_data`: `none` stands for content that
`json.loads` rejects (the `JSONDecodeError` handler returns the empty batch). -/
def parse_extracted_data (content : Option JsonData) : List Doctor :=
  match content with
  | none => []
  | some jd => dedupe [] ((toDataList jd).filterMap (fun e => e.bind mkDoctor))

/-- The page-parameter markers used by `_clean_base_url`. -/
def ampPage : Str := "&page=".toList

/-- See `ampPage`. -/
def qPage : Str := "?page=".toList

/-- `DoctolibScraper._clean_base_url` (lines 98-104). -/
def clean_base_url (url : Str) : Str :=
  if occurs ampPage url then splitBefore ampPage url
  else if occurs qPage url then splitBefore qPage url
  else url

/-- Decimal rendering of the page number interpolated by the f-string. -/
def natStr (n : Nat) : Str := (Nat.repr n).toList

/-- `DoctolibScraper._build_page_url` (lines 106-111). -/
def build_page_url (base : Str) (n : Nat) : Str :=
  if base.contains '?' then base ++ (ampPage ++ natStr n)
  else base ++ (qPage ++ natStr n)

/-- `DoctolibScraper.scrape_page` (lines 177-206): `fetch n` is the batch
`utils.extract_doctor` hands back for page `n`; `none` stands for a failed
load, a raised exception, or falsy extracted data — each of which leaves the
page's `doctors` list empty. -/
def scrape_page (fetch : Nat → Option JsonData) (n : Nat) : List Doctor :=
  match fetch n with
  | some jd => parse_extracted_data (some jd)
  | none => []

/-- `DoctolibScraper.scrape_all_pages` (lines 208-231): pages 1..maxPages in
order, each page's records appended to the running list; a page failure is
caught and the loop continues. -/
def scrape_all_pages (fetch : Nat → Option JsonData) (maxPages : Nat) : List Doctor :=
  ((List.range' 1 maxPages).map (scrape_page fetch)).flatten

/-- Observable events of a run: a page request, or the inter-page sleep. -/
inductive Ev where
  | fetch (url : Str)
  | delay
deriving DecidableEq

/-- The request/delay trace of `scrape_all_pages`: for each page its URL is
fetched, and the 2-second sleep happens only when `page_num < max_pages`
(lines 215-223). -/
def scrape_all_trace (base : Str) (maxPages : Nat) : List Ev :=
  ((List.range' 1 maxPages).map (fun n =>
    Ev.fetch (build_page_url base n) :: if n < maxPages then [Ev.delay] else [])).flatten

/-- A full run's trace: the constructor cleans the base URL (line 45), then
`scrape_all_pages` drives the pages. -/
def run_trace (raw_base : Str) (maxPages : Nat) : List Ev :=
  scrape_all_trace (clean_base_url raw_base) maxPages

/-- Whether a write call returns normally or raises. -/
inductive WriteOutcome where
  | ok
  | raises
deriving DecidableEq

/-- The two persistence targets of `main`. -/
inductive Target where
  | json
  | csv
deriving DecidableEq

/-- Events of the persistence phase of `main`. -/
inductive PEv where
  | attempt (t : Target)
  | caught
deriving DecidableEq

/-- The persistence phase of `main` (lines 478-509): `save_to_json` then
`save_to_csv`, both inside the single `try`/`except` of `main`; an exception
from either write is caught there and ends the phase. -/
def main_persist_trace (j c : WriteOutcome) : List PEv :=
  PEv.attempt Target.json ::
    match j with
    | .raises => [PEv.caught]
    | .ok =>
      PEv.attempt Target.csv ::
        match c with
        | .raises => [PEv.caught]
        | .ok => []

/-- The write attempts `main` makes, given each write's outcome. -/
def attempted (j c : WriteOutcome) : List Target :=
  (main_persist_trace j c).filterMap fun e =>
    match e with
    | .attempt t => some t
    | .caught => none

/-- `DoctolibScraper.generate_mock_rating` (lines 334-348).  The external
standard-library collaborators are parameters: `md5hex` is
`hashlib.md5(name.encode()).hexdigest()`, `seedF` is `random.seed` building
a generator state from the hash, `randomF` is `random.random`, `lt08` the
comparison `< 0.8`, `uniformF` is `round(random.uniform(3.0, 5.0), 1)`, and
`fmt` the French formatting `f"{rating}".replace('.', ',')`.  The incoming
generator state `g` models the global `random` state before the call; the
call starts by reseeding it from the name's hash. -/
def generate_mock_rating {S R : Type} (md5hex : Str → Str) (seedF : Str → S)
    (randomF : S → R × S) (lt08 : R → Bool) (uniformF : S → R × S)
    (fmt : R → Str) (name : Str) (_g : S) : Option Str × S :=
  let g0 := seedF (md5hex name)
  let (r, g1) := randomF g0
  if lt08 r then
    let (u, g2) := uniformF g1
    (some (fmt u), g2)
  else (none, g1)

end FinalScraper

/-! ## doctolib_scraper.py -/

namespace BaseScraper

open Scrape

/-- `DoctolibScraper._clean_text` of doctolib_scraper.py (lines 126-130):
only whitespace normalization, no tag removal. -/
def clean_text (s : Str) : Str :=
  if s = [] then [] else collapseWS (pyStrip s)

/-- The `Doctor` dataclass of doctolib_scraper.py. -/
structure Doctor where
  name : Str
  specialty : Str
  address : Str
  phone : Option Str := none
  rating : Option Str := none
  availability : Option Str := none
  profile_url : Option Str := none
deriving DecidableEq

/-- Literal of the name-heading patterns. -/
def h2btn : Str := "<h2><button".toList

/-- Literal closing a name heading. -/
def closeBtnH2 : Str := "</button></h2>".toList

/-- Literal opening a div of the section pattern. -/
def divOpen : Str := "<div".toList

/-- The closing run of the section pattern. -/
def close4div : Str := "</div></div></div></div>".toList

/-- Literal `<p>`. -/
def pOpen : Str := "<p>".toList

/-- Literal `</p>`. -/
def pClose : Str := "</p>".toList

/-- Literal `<span>`. -/
def spanOpen : Str := "<span>".toList

/-- Literal `</span>`. -/
def spanClose : Str := "</span>".toList

/-- `re.findall(r'<h2><button[^>]*>(.*?)</button></h2>', html,
re.DOTALL | re.IGNORECASE)` (line 138-139): scan left to right; at each
case-insensitive `<h2><button` skip `[^>]*>`, then the lazy group takes
everything up to the first `</button></h2>`; on failure the scan resumes one
character past the attempted start, on success past the match.  `fuel`
bounds the recursion; any `fuel > html.length` is enough since every step
consumes at least one character. -/
def findNames (fuel : Nat) (s : Str) : List Str :=
  match fuel with
  | 0 => []
  | fuel + 1 =>
    match findCI h2btn s with
    | none => []
    | some (_, m) =>
      match skipToGt (m.drop h2btn.length) with
      | none => findNames fuel m.tail
      | some afterGt =>
        match findCI closeBtnH2 afterGt with
        | none => findNames fuel m.tail
        | some (cap, m2) => cap :: findNames fuel (m2.drop closeBtnH2.length)

/-- The fragment `<div[^>]*>` matched at the head of the string. -/
def matchDivOpen (s : Str) : Option Str :=
  if isPrefCI divOpen s then skipToGt (s.drop divOpen.length) else none

/-- One attempt of the section pattern
`<div[^>]*><div[^>]*><div[^>]*><div[^>]*><h2><button[^>]*>(.*?)</button></h2>.*?</div></div></div></div>`
(line 143) anchored at the head of `s`: returns the captured name and the
rest of the string after the whole match. -/
def sectionAt (s : Str) : Option (Str × Str) := do
  let s1 ← matchDivOpen s
  let s2 ← matchDivOpen s1
  let s3 ← matchDivOpen s2
  let s4 ← matchDivOpen s3
  if isPrefCI h2btn s4 then
    let s5 ← skipToGt (s4.drop h2btn.length)
    match findCI closeBtnH2 s5 with
    | some (cap, m) =>
      match findCI close4div (m.drop closeBtnH2.length) with
      | some (_, m2) => some (cap, m2.drop close4div.length)
      | none => none
    | none => none
  else none

/-- `re.findall` of the section pattern (line 145): attempts start at each
case-insensitive `<div`; failed attempts resume one character later. -/
def findSections (fuel : Nat) (s : Str) : List Str :=
  match fuel with
  | 0 => []
  | fuel + 1 =>
    match findCI divOpen s with
    | none => []
    | some (_, m) =>
      match sectionAt m with
      | some (cap, rest) => cap :: findSections fuel rest
      | none => findSections fuel m.tail

/-- The lazy group of the context pattern
`(.*?)(?=<h2><button|$)` under DOTALL: capture up to the next
case-insensitive `<h2><button`, or to the end of the string (`$` also
matches just before a final newline). -/
def capToAnchor : Str → Str
  | [] => []
  | c :: rest =>
    if isPrefCI h2btn (c :: rest) then []
    else if rest = [] then (if c = '\n' then [] else [c])
    else c :: capToAnchor rest

/-- `re.search(f'<h2><button[^>]*>{re.escape(name)}</button></h2>(.*?)(?=<h2><button|$)',
html, re.DOTALL | re.IGNORECASE)` (line 159-160): the raw matched `name` is
matched literally (re.escape), case-insensitively; the group is the context
block following the heading. -/
def contextCapture (fuel : Nat) (name : Str) (s : Str) : Option Str :=
  match fuel with
  | 0 => none
  | fuel + 1 =>
    match findCI h2btn s with
    | none => none
    | some (_, m) =>
      match skipToGt (m.drop h2btn.length) with
      | none => contextCapture fuel name m.tail
      | some afterGt =>
        if isPrefCI name afterGt ∧ isPrefCI closeBtnH2 (afterGt.drop name.length) then
          some (capToAnchor (afterGt.drop (name.length + closeBtnH2.length)))
        else contextCapture fuel name m.tail

/-- A keyword finder: first position of `s` where a keyword matches
case-insensitively, returning the part before it, the suffix from it, and
the matched keyword's length. -/
def kwSingle (kw : Str) (s : Str) : Option (Str × Str × Nat) :=
  (findCI kw s).map (fun pm => (pm.1, pm.2, kw.length))

/-- Keyword alternation `(?:Rue|Boulevard|Avenue|Place)` searched
case-insensitively (the four alternatives start with distinct letters, so at
most one matches at a given position). -/
def kwAlt (kws : List Str) : Str → Option (Str × Str × Nat)
  | [] => none
  | c :: rest =>
    match kws.find? (fun k => isPrefCI k (c :: rest)) with
    | some k => some ([], (c :: rest, k.length))
    | none =>
      match kwAlt kws rest with
      | some (pre, m, n) => some (c :: pre, m, n)
      | none => none

/-- The street keywords of the address patterns (line 206-207). -/
def streetKws : List Str := ["Rue", "Boulevard", "Avenue", "Place"].map String.toList

/-- `re.search(r'<p>(.*?KW.*?)</p>', s, re.IGNORECASE)` for a keyword or
alternation `findKw`, without DOTALL: at each case-insensitive `<p>` the lazy
groups may not cross a newline, so the search space is the window up to the
first newline; the first keyword occurrence followed by the first `</p>`
wins (if no `</p>` follows the first occurrence in the window, none follows
a later one, so the position fails and the scan moves to the next `<p>`).
The returned capture is the raw group 1. -/
def searchPGen (findKw : Str → Option (Str × Str × Nat)) : Nat → Str → Option Str
  | 0, _ => none
  | fuel + 1, s =>
    match findCI pOpen s with
    | none => none
    | some (_, m) =>
      let win := (m.drop pOpen.length).takeWhile (fun d => d != '\n')
      match findKw win with
      | some (pre, mk, klen) =>
        match findCI pClose (mk.drop klen) with
        | some (gap, _) => some (pre ++ mk.take klen ++ gap)
        | none => searchPGen findKw fuel m.tail
      | none => searchPGen findKw fuel m.tail

/-- `re.search(r'<p>(\d+.*?(?:Rue|Boulevard|Avenue|Place).*?)</p>', s,
re.IGNORECASE)` (line 206): like `searchPGen` but the group must start with
a digit (`\d+` consumes at least one; the rest of the digit run is covered
by the lazy gap, and no street keyword starts with a digit). -/
def searchAddrNum : Nat → Str → Option Str
  | 0, _ => none
  | fuel + 1, s =>
    match findCI pOpen s with
    | none => none
    | some (_, m) =>
      let win := (m.drop pOpen.length).takeWhile (fun d => d != '\n')
      match win with
      | d :: w1 =>
        if d.isDigit then
          match kwAlt streetKws w1 with
          | some (pre, mk, klen) =>
            match findCI pClose (mk.drop klen) with
            | some (gap, _) => some (d :: (pre ++ mk.take klen ++ gap))
            | none => searchAddrNum fuel m.tail
          | none => searchAddrNum fuel m.tail
        else searchAddrNum fuel m.tail
      | [] => searchAddrNum fuel m.tail

/-- `re.search(r'<span>([^<]*km[^<]*)</span>', s)` (line 217),
case-sensitive: at each `<span>` the group is the whole run of non-`<`
characters; it must contain `km` and be followed directly by `</span>`. -/
def searchSpanKm : Nat → Str → Option Str
  | 0, _ => none
  | fuel + 1, s =>
    match findCS spanOpen s with
    | none => none
    | some (_, m) =>
      let run := (m.drop spanOpen.length).takeWhile (fun d => d != '<')
      if occurs "km".toList run ∧ spanClose.isPrefixOf ((m.drop spanOpen.length).drop run.length) then
        some run
      else searchSpanKm fuel m.tail

/-- `DoctolibScraper._parse_doctor_section` (lines 170-186): the whole
section with tags stripped becomes the name; specialty and address are the
hard-coded strings. -/
def parse_doctor_section (sec : Str) : Option Doctor :=
  let name := clean_text (stripTags sec)
  if name = [] then none
  else some { name := name,
              specialty := "Gastro-entérologue et hépatologue".toList,
              address := "Unknown".toList }

/-- `DoctolibScraper._parse_doctor_context` (lines 188-234): specialty from
the first matching `<p>` pattern (keywords gastro / entérologue /
Centre de santé), address from the numbered then plain street pattern,
distance from the `<span>…km…</span>` pattern (raw group), sector info from
the `Conventionné` pattern (raw group, stored in `rating`); distance is
stored in `phone`. -/
def parse_doctor_context (name ctx : Str) : Option Doctor :=
  let f := ctx.length + 1
  let specialty :=
    match searchPGen (kwSingle "gastro".toList) f ctx with
    | some g => clean_text (stripTags g)
    | none =>
      match searchPGen (kwSingle "entérologue".toList) f ctx with
      | some g => clean_text (stripTags g)
      | none =>
        match searchPGen (kwSingle "Centre de santé".toList) f ctx with
        | some g => clean_text (stripTags g)
        | none => "Unknown".toList
  let address :=
    match searchAddrNum f ctx with
    | some g => clean_text (stripTags g)
    | none =>
      match searchPGen (kwAlt streetKws) f ctx with
      | some g => clean_text (stripTags g)
      | none => "Unknown".toList
  let distance := searchSpanKm f ctx
  let sector := searchPGen (kwSingle "Conventionné".toList) f ctx
  some { name := name, specialty := specialty, address := address,
         phone := distance, rating := sector }

/-- `DoctolibScraper._extract_doctors_from_html` (lines 132-168): the
section pass first; if it yields nothing and name headings exist, the
name-anchored context pass. -/
def extract_doctors_from_html (html : Str) (page_url : Str) : List Doctor :=
  let fuel := html.length + 1
  let name_matches := findNames fuel html
  let section_matches := findSections fuel html
  let doctors := section_matches.filterMap (fun sec =>
    match parse_doctor_section sec with
    | some d => if d.name ≠ [] then some d else none
    | none => none)
  if doctors = [] ∧ name_matches ≠ [] then
    name_matches.filterMap (fun nm =>
      let clean_name := clean_text (stripTags nm)
      if clean_name ≠ [] then
        match contextCapture fuel nm html with
        | some ctx => parse_doctor_context clean_name ctx
        | none => none
      else none)
  else doctors

/-- One structured-pass JSON item (`item.get(key)`: `none` is a missing
key, mirrored by each `get`'s default). -/
structure SItem where
  name : Option Str := none
  specialty : Option Str := none
  address : Option Str := none
  phone : Option Str := none
  rating : Option Str := none
  availability : Option Str := none
  profile_url : Option Str := none
deriving DecidableEq

/-- Truthiness of `item.get('name')`. -/
def truthy : Option Str → Bool
  | none => false
  | some s => !s.isEmpty

/-- The top-level JSON of the structured pass as line 328 splits on it:
a list (non-dict entries are `none`) or anything else. -/
inductive JsonTop where
  | jlist (items : List (Option SItem))
  | jother
deriving DecidableEq

/-- Outcome of the structured extraction attempt (lines 316-344):
`unavailable` when the call fails or returns falsy content, `malformed` when
`json.loads` raises `JSONDecodeError`, otherwise the parsed value. -/
inductive StructuredOutcome where
  | unavailable
  | malformed
  | parsed (v : JsonTop)
deriving DecidableEq

/-- Lines 329-342: build a `Doctor` from a dict with a truthy name;
`urljoinF` models `urllib.parse.urljoin` (Python standard library). -/
def mkDoctorStructured (urljoinF : Str → Str → Str) (page_url : Str)
    (it : SItem) : Option Doctor :=
  if truthy it.name then
    let purl := it.profile_url.getD []
    let purl' := if purl ≠ [] ∧ ¬ "http".toList.isPrefixOf purl
                 then urljoinF page_url purl else purl
    some { name := clean_text (it.name.getD []),
           specialty := clean_text (it.specialty.getD "Unknown".toList),
           address := clean_text (it.address.getD "Unknown".toList),
           phone := some (clean_text (it.phone.getD [])),
           rating := some (clean_text (it.rating.getD [])),
           availability := some (clean_text (it.availability.getD [])),
           profile_url := some purl' }
  else none

/-- `DoctolibScraper.scrape_page` (lines 294-359): on a successful load, try
the structured pass; when it yields no doctors (including the malformed-JSON
case, whose handler only logs), fall back to
`_extract_doctors_from_html(result.cleaned_html, page_url)`; an unsuccessful
load yields no records. -/
def scrape_page (urljoinF : Str → Str → Str) (fetch_success : Bool)
    (cleaned_html : Str) (ext : StructuredOutcome) (page_url : Str) : List Doctor :=
  if fetch_success then
    let doctors : List Doctor :=
      match ext with
      | .parsed (.jlist items) =>
        items.filterMap (fun oit => oit.bind (mkDoctorStructured urljoinF page_url))
      | .parsed .jother => []
      | .malformed => []
      | .unavailable => []
    if doctors = [] then extract_doctors_from_html cleaned_html page_url else doctors
  else []

end BaseScraper

/-! ## Spec-side predicates and concrete run data -/

namespace Scrape

/-- No two consecutive whitespace characters. -/
def noConsecWS : Str → Bool
  | a :: b :: t => (!(pyIsSpace a && pyIsSpace b)) && noConsecWS (b :: t)
  | _ => true

/-- The first character, if any, is not whitespace. -/
def noLeadWS : Str → Bool
  | [] => true
  | c :: _ => !pyIsSpace c

/-- The last character, if any, is not whitespace. -/
def noTrailWS (l : Str) : Bool := noLeadWS l.reverse

/-- No proper, non-empty suffix of the pattern `p` is a prefix of `s`: an
occurrence of `p` in `C ++ s` can then never start strictly inside `C`. -/
def noSpan (p s : Str) : Prop :=
  ∀ k, k < p.length → 0 < k → (p.drop k).isPrefixOf s = false

end Scrape

namespace FinalScraper

/-- A three-page run whose page 2 fails: pages 1 and 3 each deliver one
record. -/
def fetchW : Nat → Option JsonData :=
  fun n => if n = 2 then none else some (.jlist [some ⟨"Dr A".toList, [], []⟩])

/-- Every page delivers the same single record named `Dr A`. -/
def dupFetch : Nat → Option JsonData :=
  fun _ => some (.jlist [some ⟨"Dr A".toList, [], []⟩])

end FinalScraper

namespace BaseScraper

/-- A page whose markup holds exactly one name heading. -/
def demoHtml : Scrape.Str := "<h2><button>Dr A</button></h2>".toList

end BaseScraper

/-! ## Lemmas about the text normalizer -/

namespace Scrape

theorem noLeadWS_dropWhile (l : Str) : noLeadWS (l.dropWhile pyIsSpace) = true := by
  induction l with
  | nil => rfl
  | cons c t ih =>
    by_cases h : pyIsSpace c = true
    · simpa [List.dropWhile, h] using ih
    · simp [List.dropWhile, h, noLeadWS]

theorem rstrip_eq_rdropWhile (l : Str) : rstrip l = l.rdropWhile pyIsSpace := rfl

theorem noLeadWS_rstrip (l : Str) (h : noLeadWS l = true) :
    noLeadWS (rstrip l) = true := by
  have hp : rstrip l <+: l := by
    rw [rstrip_eq_rdropWhile]
    exact List.rdropWhile_prefix pyIsSpace l
  obtain ⟨t, ht⟩ := hp
  cases hr : rstrip l with
  | nil => rfl
  | cons c u =>
    rw [hr] at ht
    subst ht
    simpa [noLeadWS] using h

theorem noLeadWS_pyStrip (l : Str) : noLeadWS (pyStrip l) = true :=
  noLeadWS_rstrip _ (noLeadWS_dropWhile l)

theorem noTrailWS_rstrip (l : Str) : noTrailWS (rstrip l) = true := by
  unfold noTrailWS rstrip
  rw [List.reverse_reverse]
  exact noLeadWS_dropWhile l.reverse

theorem noTrailWS_pyStrip (l : Str) : noTrailWS (pyStrip l) = true :=
  noTrailWS_rstrip _

theorem noTrailWS_cons (c : Char) (l : Str) (h : l ≠ []) :
    noTrailWS (c :: l) = noTrailWS l := by
  unfold noTrailWS
  rw [List.reverse_cons]
  cases hr : l.reverse with
  | nil => exact absurd (by simpa using congrArg List.reverse hr) h
  | cons x t => simp [noLeadWS]

theorem collapseGo_noConsec (s : Str) :
    ∀ b, noConsecWS (collapseGo b s) = true ∧
      (b = true → noLeadWS (collapseGo b s) = true) := by
  induction s with
  | nil => intro b; exact ⟨rfl, fun _ => rfl⟩
  | cons c rest ih =>
    intro b
    by_cases h : pyIsSpace c = true
    · by_cases hb : b = true
      · subst hb
        simpa [collapseGo, h] using ih true
      · have hb' : b = false := by revert hb; cases b <;> simp
        subst hb'
        refine ⟨?_, by simp⟩
        have hX := (ih true).2 rfl
        have hXc := (ih true).1
        simp only [collapseGo, h, if_pos, if_neg]
        cases hXv : collapseGo true rest with
        | nil => rfl
        | cons x t =>
          rw [hXv] at hX hXc
          simp only [noLeadWS] at hX
          simp [noConsecWS, hXc, Bool.not_eq_true] at hX ⊢
          simp [hX]
    · have hY := (ih false).1
      refine ⟨?_, ?_⟩
      · simp only [collapseGo, h, if_neg]
        cases hYv : collapseGo false rest with
        | nil => simp [noConsecWS]
        | cons y t =>
          rw [hYv] at hY
          simp [noConsecWS, h, hY]
      · intro _
        simp [collapseGo, h, noLeadWS]

theorem collapseGo_ne_nil (s : Str) :
    ∀ b, noTrailWS s = true → s ≠ [] → collapseGo b s ≠ [] := by
  induction s with
  | nil => intro b _ hne; exact absurd rfl hne
  | cons c rest ih =>
    intro b htr _
    by_cases h : pyIsSpace c = true
    · have hrest : rest ≠ [] := by
        rintro rfl
        simp [noTrailWS, noLeadWS, h] at htr
      have htr' : noTrailWS rest = true := by
        rwa [noTrailWS_cons c rest hrest] at htr
      by_cases hb : b = true
      · subst hb; simpa [collapseGo, h] using ih true htr' hrest
      · have hb' : b = false := by revert hb; cases b <;> simp
        subst hb'
        simp [collapseGo, h]
    · simp [collapseGo, h]

theorem collapseGo_noTrail (s : Str) :
    ∀ b, noTrailWS s = true → noTrailWS (collapseGo b s) = true := by
  induction s with
  | nil => intro b _; rfl
  | cons c rest ih =>
    intro b htr
    by_cases h : pyIsSpace c = true
    · have hrest : rest ≠ [] := by
        rintro rfl
        simp [noTrailWS, noLeadWS, h] at htr
      have htr' : noTrailWS rest = true := by
        rwa [noTrailWS_cons c rest hrest] at htr
      by_cases hb : b = true
      · subst hb; simpa [collapseGo, h] using ih true htr'
      · have hb' : b = false := by revert hb; cases b <;> simp
        subst hb'
        have hne := collapseGo_ne_nil rest true htr' hrest
        have hred : collapseGo false (c :: rest) = ' ' :: collapseGo true rest := by
          simp [collapseGo, h]
        rw [hred, noTrailWS_cons ' ' _ hne]
        exact ih true htr'
    · cases hrest : rest with
      | nil =>
        subst hrest
        have hred : collapseGo b (c :: []) = [c] := by simp [collapseGo, h]
        rw [hred]
        simpa [noTrailWS, noLeadWS] using htr
      | cons r t =>
        rw [hrest] at htr ih
        have htr' : noTrailWS (r :: t) = true := by
          rwa [noTrailWS_cons c _ (by simp)] at htr
        have hne := collapseGo_ne_nil (r :: t) false htr' (by simp)
        have hred : collapseGo b (c :: r :: t) = c :: collapseGo false (r :: t) := by
          simp [collapseGo, h]
        rw [hred, noTrailWS_cons c _ hne]
        exact ih false htr'

theorem clean_text_shape (s : Str) :
    noConsecWS (FinalScraper.clean_text s) = true ∧
    noLeadWS (FinalScraper.clean_text s) = true ∧
    noTrailWS (FinalScraper.clean_text s) = true := by
  unfold FinalScraper.clean_text
  by_cases h : s = []
  · simp [h, noConsecWS, noLeadWS, noTrailWS]
  · simp only [h, if_neg, if_false]
    set x := pyStrip (stripTags s) with hx
    refine ⟨(collapseGo_noConsec x false).1, ?_, collapseGo_noTrail x false (noTrailWS_pyStrip _)⟩
    have hlead : noLeadWS x = true := noLeadWS_pyStrip _
    cases hxv : x with
    | nil => simp [collapseWS, collapseGo, noLeadWS]
    | cons c t =>
      rw [hxv] at hlead
      simp only [noLeadWS] at hlead
      simp [collapseWS, collapseGo, Bool.not_eq_true] at hlead ⊢
      simp [hlead, noLeadWS]

/-! ## Lemmas about the substring test and the page-parameter split -/

theorem isPrefixOf_iff_pref {p s : Str} : p.isPrefixOf s = true ↔ p <+: s :=
  List.isPrefixOf_iff_prefix

theorem occurs_of_pref {p s : Str} (h : p.isPrefixOf s = true) : occurs p s = true := by
  cases s with
  | nil => simpa [occurs] using h
  | cons c rest => simp [occurs, h]

theorem isPrefixOf_append_self (p r : Str) : p.isPrefixOf (p ++ r) = true :=
  isPrefixOf_iff_pref.mpr (List.prefix_append p r)

theorem occurs_append_right (p C s : Str) (hs : occurs p s = true) :
    occurs p (C ++ s) = true := by
  induction C with
  | nil => simpa
  | cons c t ih => simp [occurs, ih]

theorem not_pref_cons_append (p : Str) (c : Char) (C s : Str)
    (hplen : 0 < p.length)
    (h1 : p.isPrefixOf (c :: C) = false)
    (h2 : noSpan p s) :
    p.isPrefixOf ((c :: C) ++ s) = false := by
  by_contra hcon
  have hpre : p <+: (c :: C) ++ s :=
    isPrefixOf_iff_pref.mp (by revert hcon; cases p.isPrefixOf ((c :: C) ++ s) <;> simp)
  rcases le_or_lt p.length (c :: C).length with hle | hlt
  · have : p <+: c :: C :=
      List.prefix_of_prefix_length_le hpre (List.prefix_append (c :: C) s) hle
    rw [isPrefixOf_iff_pref.mpr this] at h1
    exact Bool.true_eq_false.mp h1
  · have ht : (c :: C) <+: p :=
      List.prefix_of_prefix_length_le (List.prefix_append (c :: C) s) hpre (Nat.le_of_lt hlt)
    obtain ⟨r, hr⟩ := ht
    have hdrop : p.drop (c :: C).length = r := by
      rw [← hr, List.drop_left]
    have hrs : r <+: s := by
      have := hpre
      rw [← hr] at this
      exact (List.prefix_append_right_inj (c :: C)).mp this
    have := h2 (c :: C).length hlt (by simp)
    rw [hdrop, isPrefixOf_iff_pref.mpr hrs] at this
    exact Bool.true_eq_false.mp this

theorem occurs_append_false (p C s : Str) (hplen : 0 < p.length)
    (hC : occurs p C = false) (hsp : noSpan p s) (hs : occurs p s = false) :
    occurs p (C ++ s) = false := by
  induction C with
  | nil => simpa
  | cons c t ih =>
    simp only [occurs, Bool.or_eq_false_iff] at hC
    have hrec := ih hC.2
    have hhd := not_pref_cons_append p c t s hplen hC.1 hsp
    simp only [List.cons_append, occurs, Bool.or_eq_false_iff]
    exact ⟨by simpa using hhd, hrec⟩

theorem splitBefore_append (p C s : Str) (hplen : 0 < p.length)
    (hC : occurs p C = false) (hsp : noSpan p s) :
    splitBefore p (C ++ s) = C ++ splitBefore p s := by
  induction C with
  | nil => simp
  | cons c t ih =>
    simp only [occurs, Bool.or_eq_false_iff] at hC
    have hhd := not_pref_cons_append p c t s hplen hC.1 hsp
    simp only [List.cons_append] at hhd ⊢
    simp only [splitBefore, hhd, Bool.false_eq_true, if_false]
    rw [ih hC.2]

theorem splitBefore_of_pref (p s : Str) (h : p.isPrefixOf s = true) :
    splitBefore p s = [] := by
  cases s with
  | nil => rfl
  | cons c rest => simp [splitBefore, h]

theorem noSpan_of_self_append (p r : Str)
    (h : ∀ k, k < p.length → 0 < k → (p.drop k).isPrefixOf p = false) :
    noSpan p (p ++ r) := by
  intro k hk h0
  by_contra hcon
  have hpre : p.drop k <+: p ++ r :=
    isPrefixOf_iff_pref.mp (by revert hcon; cases (p.drop k).isPrefixOf (p ++ r) <;> simp)
  have hlen : (p.drop k).length ≤ p.length := by
    simp [List.length_drop]
  have : p.drop k <+: p :=
    List.prefix_of_prefix_length_le hpre (List.prefix_append p r) hlen
  have hfalse := h k hk h0
  rw [isPrefixOf_iff_pref.mpr this] at hfalse
  exact Bool.true_eq_false.mp hfalse

end Scrape

/-! ## Lemmas about the deduplicator and the record filter -/

namespace FinalScraper

open Scrape

theorem dedupe_sublist (seen : List Str) (l : List Doctor) :
    (dedupe seen l).Sublist l := by
  induction l generalizing seen with
  | nil => simp [dedupe]
  | cons d rest ih =>
    by_cases h : d.name ∈ seen
    · simp only [dedupe, h, if_pos]
      exact (ih seen).cons d
    · simp only [dedupe, h, if_neg, if_false]
      exact (ih (d.name :: seen)).cons₂ d

theorem dedupe_spec (seen : List Str) (l : List Doctor) (d : Doctor)
    (hd : d ∈ dedupe seen l) :
    d.name ∉ seen ∧ l.find? (fun e => e.name == d.name) = some d := by
  induction l generalizing seen with
  | nil => simp [dedupe] at hd
  | cons x rest ih =>
    by_cases h : x.name ∈ seen
    · simp only [dedupe, h, if_pos] at hd
      obtain ⟨hns, hfind⟩ := ih seen hd
      have hne : (x.name == d.name) = false := by
        apply beq_eq_false_iff_ne.mpr
        intro he
        exact hns (he ▸ h)
      refine ⟨hns, ?_⟩
      rw [List.find?_cons_of_neg _ (by simp [hne]), hfind]
    · simp only [dedupe, h, if_neg, if_false, List.mem_cons] at hd
      rcases hd with rfl | hd
      · exact ⟨h, by rw [List.find?_cons_of_pos _ (by simp)]⟩
      · obtain ⟨hns, hfind⟩ := ih (x.name :: seen) hd
        simp only [List.mem_cons, not_or] at hns
        have hne : (x.name == d.name) = false :=
          beq_eq_false_iff_ne.mpr (fun he => hns.1 he.symm)
        refine ⟨hns.2, ?_⟩
        rw [List.find?_cons_of_neg _ (by simp [hne]), hfind]

theorem dedupe_names_nodup (seen : List Str) (l : List Doctor) :
    ((dedupe seen l).map Doctor.name).Nodup := by
  induction l generalizing seen with
  | nil => simp [dedupe]
  | cons x rest ih =>
    by_cases h : x.name ∈ seen
    · simp only [dedupe, h, if_pos]
      exact ih seen
    · simp only [dedupe, h, if_neg, if_false, List.map_cons, List.nodup_cons]
      refine ⟨?_, ih (x.name :: seen)⟩
      intro hmem
      obtain ⟨d, hdmem, hdname⟩ := List.mem_map.mp hmem
      have := (dedupe_spec (x.name :: seen) rest d hdmem).1
      exact this (by rw [hdname]; exact List.mem_cons_self _ _)

theorem mkDoctor_props (it : RawItem) (d : Doctor) (h : mkDoctor it = some d) :
    d.name ≠ [] ∧ d.name ≠ "Unknown".toList ∧
      ∀ t ∈ skipTerms, occurs t d.name = false := by
  simp only [mkDoctor] at h
  split at h
  case isTrue hcond =>
    obtain ⟨h1, h2, h3⟩ := hcond
    cases h
    refine ⟨h1, h2, ?_⟩
    intro t ht
    have := List.all_eq_true.mp h3 t ht
    simpa using this
  case isFalse => exact absurd h (by simp)

theorem parse_props (jd : JsonData) (d : Doctor)
    (hd : d ∈ parse_extracted_data (some jd)) :
    d.name ≠ [] ∧ d.name ≠ "Unknown".toList ∧
      ∀ t ∈ skipTerms, occurs t d.name = false := by
  have hsub := dedupe_sublist [] ((toDataList jd).filterMap (fun e => e.bind mkDoctor))
  have hmem : d ∈ (toDataList jd).filterMap (fun e => e.bind mkDoctor) :=
    hsub.mem hd
  obtain ⟨e, _, hbind⟩ := List.mem_filterMap.mp hmem
  obtain ⟨it, _, hmk⟩ := Option.bind_eq_some.mp hbind
  exact mkDoctor_props it d hmk

end FinalScraper

/-! ## The claims -/

section ClaimsFinal

open Scrape FinalScraper

/-- C1: for every extraction batch parsed from one page, every record
surviving the dedupe/filter step has a unique, non-empty, non-denylisted
name (denylist membership is a case-sensitive substring test on the
normalized name), and the surviving records appear in first-seen order of
the input (the output is a subsequence of the filtered input, and each
survivor is the first filtered record bearing its name); in particular a
batch with the two name headings `Dr A` and `Notre entreprise` yields
exactly one surviving record, for `Dr A`. -/
theorem claim1_dedupe_unique_valid_ordered :
    (∀ jd : JsonData,
      ((parse_extracted_data (some jd)).map Doctor.name).Nodup
      ∧ (∀ d ∈ parse_extracted_data (some jd),
          d.name ≠ [] ∧ ∀ t ∈ skipTerms, occurs t d.name = false)
      ∧ (parse_extracted_data (some jd)).Sublist
          ((toDataList jd).filterMap (fun e => e.bind mkDoctor))
      ∧ (∀ d ∈ parse_extracted_data (some jd),
          ((toDataList jd).filterMap (fun e => e.bind mkDoctor)).find?
            (fun e => e.name == d.name) = some d))
    ∧ parse_extracted_data (some (.jlist
        [some ⟨"Dr A".toList, [], []⟩, some ⟨"Notre entreprise".toList, [], []⟩]))
      = [{ name := "Dr A".toList }] := by
  constructor
  · intro jd
    refine ⟨dedupe_names_nodup _ _, ?_, dedupe_sublist _ _, ?_⟩
    · intro d hd
      obtain ⟨h1, _, h3⟩ := parse_props jd d hd
      exact ⟨h1, h3⟩
    · intro d hd
      exact (dedupe_spec [] _ d hd).2
  · decide

/-- C1 witness: the general part of `claim1_dedupe_unique_valid_ordered`
instantiated at the concrete two-heading batch. -/
theorem claim1_witness :
    ((parse_extracted_data (some (.jlist
        [some ⟨"Dr A".toList, [], []⟩, some ⟨"Notre entreprise".toList, [], []⟩]))).map
      Doctor.name).Nodup :=
  (claim1_dedupe_unique_valid_ordered.1 _).1

/-- C2 counterexample: with the same single record named `Dr A` delivered on
each of two pages, the final aggregated result of the full scrape holds two
records with that name, not exactly one. -/
theorem claim2_counterexample :
    (scrape_all_pages dupFetch 2).map Doctor.name = ["Dr A".toList, "Dr A".toList]
    ∧ ¬ ((scrape_all_pages dupFetch 2).filter
          (fun d => d.name == "Dr A".toList)).length = 1 := by
  decide

/-- C2 (amended): duplicate names within a single page are deduplicated to
exactly one surviving record for that page, but the full scrape only
concatenates the per-page batches, so the same name on different pages
yields one record per page. -/
theorem claim2_per_page_dedupe :
    (∀ (fetch : Nat → Option JsonData) (n : Nat),
      ((scrape_page fetch n).map Doctor.name).Nodup)
    ∧ (∀ (fetch : Nat → Option JsonData) (m : Nat),
      scrape_all_pages fetch m = ((List.range' 1 m).map (scrape_page fetch)).flatten) := by
  refine ⟨?_, fun fetch m => rfl⟩
  intro fetch n
  unfold scrape_page
  cases fetch n with
  | none => simp
  | some jd => exact dedupe_names_nodup _ _

/-- C3 counterexample: the input `<>` survives `_clean_text` unchanged, so
the output can contain `<` and `>`. -/
theorem claim3_counterexample :
    '<' ∈ clean_text ('<' :: '>' :: []) ∧ '>' ∈ clean_text ('<' :: '>' :: []) := by
  decide

/-- C3 (amended): for every raw input string, `_clean_text` returns a string
with no two consecutive whitespace characters and no leading or trailing
whitespace, and returns the empty string for null/empty input (and, being a
total function, never throws); only complete `<...>` tags are removed, so
`<`/`>` characters outside a complete tag may remain. -/
theorem claim3_normalize_whitespace :
    (∀ s : Str, noConsecWS (clean_text s) = true
      ∧ noLeadWS (clean_text s) = true
      ∧ noTrailWS (clean_text s) = true)
    ∧ clean_text [] = [] := by
  exact ⟨fun s => clean_text_shape s, rfl⟩

/-- C4: in a 3-page run, a fetch or extraction failure on page 2 does not
abort the run — all three pages are attempted (the request trace always
fetches pages 1, 2 and 3 in order, whatever each page returns), and the
result is exactly page 1's records followed by page 3's records, the failing
page contributing none. -/
theorem claim4_failed_page_skipped :
    (∀ fetch : Nat → Option JsonData, fetch 2 = none →
      scrape_all_pages fetch 3 = scrape_page fetch 1 ++ scrape_page fetch 3)
    ∧ (∀ base : Str, scrape_all_trace base 3
        = [Ev.fetch (build_page_url base 1), Ev.delay,
           Ev.fetch (build_page_url base 2), Ev.delay,
           Ev.fetch (build_page_url base 3)]) := by
  constructor
  · intro fetch h2
    show ((List.range' 1 3).map (scrape_page fetch)).flatten = _
    have hr : List.range' 1 3 = [1, 2, 3] := rfl
    have hp2 : scrape_page fetch 2 = [] := by
      unfold scrape_page
      rw [h2]
    rw [hr]
    simp [List.flatten, hp2]
  · intro base
    rfl

/-- C4 witness: `claim4_failed_page_skipped` at the concrete run `fetchW`,
whose page 2 fails while pages 1 and 3 deliver records. -/
theorem claim4_witness :
    scrape_all_pages fetchW 3 = scrape_page fetchW 1 ++ scrape_page fetchW 3 :=
  claim4_failed_page_skipped.1 fetchW rfl

/-- C6 counterexample: when the JSON write raises, the CSV write is never
attempted — both writes sit in `main`'s single `try`/`except`. -/
theorem claim6_counterexample :
    Target.csv ∉ attempted .raises .ok := by
  decide

/-- C6 (amended): a CSV write failure cannot affect the JSON write, which
has already completed, but a JSON write failure aborts the persistence phase
before the CSV write is attempted: the CSV write is attempted exactly when
the JSON write returns normally. -/
theorem claim6_json_failure_blocks_csv :
    ∀ j c : WriteOutcome,
      Target.json ∈ attempted j c
      ∧ (Target.csv ∈ attempted j c ↔ j = .ok) := by
  intro j c
  cases j <;> cases c <;> decide

/-- C7 counterexample: for a base URL that still carries a page parameter,
appending page 1, stripping, and rebuilding does not reproduce the first
build. -/
theorem claim7_counterexample :
    build_page_url (clean_base_url
        (build_page_url "https://example.test/search?a=1&page=2".toList 1)) 1
      ≠ build_page_url "https://example.test/search?a=1&page=2".toList 1 := by
  decide

/-- C7 (amended): for every pre-cleaned base URL — one containing neither
`&page=` nor `?page=`, as the scraper's constructor guarantees by stripping
the page parameter — with or without an existing query string, appending the
page-1 parameter, stripping the page parameter and rebuilding for page 1
yields the same URL as the first build. -/
theorem claim7_idempotent_on_clean_base :
    ∀ base : Str,
      occurs ampPage base = false →
      occurs qPage base = false →
      build_page_url (clean_base_url (build_page_url base 1)) 1
        = build_page_url base 1 := by
  intro base h1 h2
  by_cases hq : base.contains '?' = true
  · have hb : build_page_url base 1 = base ++ (ampPage ++ natStr 1) := by
      unfold build_page_url
      rw [if_pos hq]
    have hocc : occurs ampPage (base ++ (ampPage ++ natStr 1)) = true :=
      occurs_append_right _ _ _ (occurs_of_pref (isPrefixOf_append_self _ _))
    have hspan : noSpan ampPage (ampPage ++ natStr 1) :=
      noSpan_of_self_append _ _ (by decide)
    have hsplit := splitBefore_append ampPage base (ampPage ++ natStr 1) (by decide) h1 hspan
    have hnil : splitBefore ampPage (ampPage ++ natStr 1) = [] :=
      splitBefore_of_pref _ _ (isPrefixOf_append_self _ _)
    rw [hb]
    simp only [clean_base_url, hocc, if_true]
    rw [hsplit, hnil, List.append_nil, hb]
  · have hq' : base.contains '?' = false := by
      revert hq; cases base.contains '?' <;> simp
    have hb : build_page_url base 1 = base ++ (qPage ++ natStr 1) := by
      unfold build_page_url
      rw [if_neg hq]
    have hampspan : noSpan ampPage (qPage ++ natStr 1) := by
      unfold noSpan; decide
    have hampocc : occurs ampPage (base ++ (qPage ++ natStr 1)) = false :=
      occurs_append_false _ _ _ (by decide) h1 hampspan (by decide)
    have hqocc : occurs qPage (base ++ (qPage ++ natStr 1)) = true :=
      occurs_append_right _ _ _ (occurs_of_pref (isPrefixOf_append_self _ _))
    have hspan : noSpan qPage (qPage ++ natStr 1) :=
      noSpan_of_self_append _ _ (by decide)
    have hsplit := splitBefore_append qPage base (qPage ++ natStr 1) (by decide) h2 hspan
    have hnil : splitBefore qPage (qPage ++ natStr 1) = [] :=
      splitBefore_of_pref _ _ (isPrefixOf_append_self _ _)
    rw [hb]
    simp only [clean_base_url, hampocc, hqocc, Bool.false_eq_true, if_false, if_true]
    rw [hsplit, hnil, List.append_nil, hb]

/-- C7 witness: `claim7_idempotent_on_clean_base` at the concrete pre-cleaned
base of the spec's scenario. -/
theorem claim7_witness :
    build_page_url (clean_base_url
        (build_page_url "https://example.test/search?location=paris".toList 1)) 1
      = build_page_url "https://example.test/search?location=paris".toList 1 :=
  claim7_idempotent_on_clean_base "https://example.test/search?location=paris".toList
    (by decide) (by decide)

/-- C8: for base URL `https://example.test/search?location=paris` and
maxPages = 2, the run requests exactly `...&page=1` then `...&page=2`, in
that order, with the inter-page delay between the two fetches and not after
the last one. -/
theorem claim8_request_trace :
    run_trace "https://example.test/search?location=paris".toList 2
      = [Ev.fetch "https://example.test/search?location=paris&page=1".toList,
         Ev.delay,
         Ev.fetch "https://example.test/search?location=paris&page=2".toList] := by
  decide

/-- C9: `generate_mock_rating` is deterministic in the practitioner's name —
for any implementation of the hashing, seeding, drawing and formatting
collaborators, two calls with the same name from arbitrary prior generator
states return the same rating and leave the generator in the same state,
because the call reseeds the generator from the name's hash before drawing. -/
theorem claim9_mock_rating_deterministic :
    ∀ (S R : Type) (md5hex : Str → Str) (seedF : Str → S) (randomF : S → R × S)
      (lt08 : R → Bool) (uniformF : S → R × S) (fmt : R → Str) (name : Str) (g g' : S),
      generate_mock_rating md5hex seedF randomF lt08 uniformF fmt name g
        = generate_mock_rating md5hex seedF randomF lt08 uniformF fmt name g' := by
  intros; rfl

/-- C10: `_clean_base_url` cuts the URL at the first `&page=`, so every
character after it — including any later query parameters — is lost from the
cleaned base URL. -/
theorem claim10_clean_base_url_drops_tail :
    ∀ A B : Str, occurs ampPage A = false →
      clean_base_url (A ++ ampPage ++ B) = A := by
  intro A B hA
  rw [List.append_assoc]
  have hocc : occurs ampPage (A ++ (ampPage ++ B)) = true :=
    occurs_append_right _ _ _ (occurs_of_pref (isPrefixOf_append_self _ _))
  have hspan : noSpan ampPage (ampPage ++ B) :=
    noSpan_of_self_append _ _ (by decide)
  have hsplit := splitBefore_append ampPage A (ampPage ++ B) (by decide) hA hspan
  have hnil : splitBefore ampPage (ampPage ++ B) = [] :=
    splitBefore_of_pref _ _ (isPrefixOf_append_self _ _)
  simp only [clean_base_url, hocc, if_true]
  rw [hsplit, hnil, List.append_nil]

/-- C10 witness: `claim10_clean_base_url_drops_tail` on
`https://example.test/search?a=1&page=2&b=3`: the `b=3` parameter after the
page parameter is lost. -/
theorem claim10_witness :
    clean_base_url ("https://example.test/search?a=1".toList
        ++ ampPage ++ "2&b=3".toList)
      = "https://example.test/search?a=1".toList :=
  claim10_clean_base_url_drops_tail "https://example.test/search?a=1".toList
    "2&b=3".toList (by decide)

end ClaimsFinal

section ClaimsBase

open Scrape BaseScraper

/-- C5: when the structured-schema pass of doctolib_scraper.py returns
malformed JSON, `scrape_page` falls back to the regex extraction pass and
returns exactly what `_extract_doctors_from_html` finds on the page's
markup; a page whose name headings the regex pass locates still yields those
records, and only when every strategy yields nothing does the page
contribute zero records (the function still returns, so the run goes on). -/
theorem claim5_malformed_json_falls_back :
    (∀ (uf : Str → Str → Str) (html purl : Str),
        BaseScraper.scrape_page uf true html .malformed purl
          = extract_doctors_from_html html purl)
    ∧ (∀ (uf : Str → Str → Str) (purl : Str),
        BaseScraper.scrape_page uf true demoHtml .malformed purl
          = [{ name := "Dr A".toList, specialty := "Unknown".toList,
               address := "Unknown".toList }])
    ∧ (∀ (uf : Str → Str → Str) (purl : Str),
        BaseScraper.scrape_page uf true [] .malformed purl = []) := by
  refine ⟨fun uf html purl => rfl, fun uf purl => ?_, fun uf purl => rfl⟩
  rfl

end ClaimsBase
